import Mathlib

/-!
Verification of the vaporisation-lab analysis pipeline.

This file gives a shallow embedding, over the real numbers, of the two
source files of the repository (`constants.py` and `app.py`), together
with theorems settling the behavioural claims about them.

Modelling conventions:
* Python/NumPy float arrays are modelled as `List ℝ`; element-wise NumPy
  arithmetic becomes `List.map` / `List.zipWith`.
* `scipy.stats.linregress` is embedded as implemented in scipy: a guard
  raising `ValueError` on empty input, a guard raising `ValueError` when
  all x values are identical and there is more than one of them, and
  otherwise the closed-form estimates built from the bias-corrected-free
  (`bias=1`) covariance entries of `np.cov`, with the Pearson r clipped
  into `[-1, 1]` and set to `0` when its denominator vanishes.  A raised
  exception is modelled as `Except.error`.
* Real-number division by zero in Lean yields the junk value `0` where
  IEEE floats would yield `±inf`/`NaN`; no claim settled here depends on
  the junk value itself, only on whether an exception is raised and on
  values along non-degenerate paths, which real arithmetic renders
  faithfully.
-/

namespace VapLab

noncomputable section

/-- Universal gas constant, `R = 8.314` in `constants.py`. -/
def R : ℝ := 8.314

/-- Standard atmospheric pressure in Pa, `P_ATM_STD = 101325.0` in
`constants.py`. -/
def P_ATM_STD : ℝ := 101325.0

/-- Arithmetic mean of a list, as `np.mean` computes it (sum over
length; for the empty list Lean's `0 / 0 = 0` stands in for NumPy's
`NaN`, which no settled path reaches). -/
def mean (l : List ℝ) : ℝ := l.sum / l.length

/-- Entry of the `bias=1` covariance matrix `np.cov(x, y, bias=1)` used
inside `scipy.stats.linregress`: the average of the products of the
deviations from the means. -/
def covb (x y : List ℝ) : ℝ :=
  mean (List.zipWith (fun a b => (a - mean x) * (b - mean y)) x y)

/-- The fields of the `scipy.stats.linregress` result object that
`app.py` reads. -/
structure FitResult where
  slope : ℝ
  intercept : ℝ
  rvalue : ℝ

/-- The slope scipy computes on the non-raising path:
`slope = ssxym / ssxm` with the `bias=1` covariance entries. -/
def fit_slope (x y : List ℝ) : ℝ := covb x y / covb x x

/-- The intercept scipy computes on the non-raising path:
`intercept = ymean - slope * xmean`. -/
def fit_intercept (x y : List ℝ) : ℝ := mean y - fit_slope x y * mean x

/-- The Pearson r scipy computes on the non-raising path: `0` when the
denominator `sqrt(ssxm * ssym)` vanishes, otherwise `ssxym` over that
denominator, clipped into `[-1, 1]` against numerical error. -/
def fit_r (x y : List ℝ) : ℝ :=
  if Real.sqrt (covb x x * covb y y) = 0 then 0
  else if covb x y / Real.sqrt (covb x x * covb y y) > 1 then 1
  else if covb x y / Real.sqrt (covb x x * covb y y) < -1 then -1
  else covb x y / Real.sqrt (covb x x * covb y y)

/-- Shallow embedding of `scipy.stats.linregress(x, y)`.  The two
`ValueError`s scipy can raise become `Except.error`; the guard
`np.amax(x) == np.amin(x)` is rendered as "all elements of `x` are
equal", which is equivalent on the non-empty lists that reach it.  With
a single sample (`len(x) == 1`) scipy raises nothing and computes
`slope = 0/0`; the Lean junk value `0` stands in for scipy's `NaN`. -/
def linregress (x y : List ℝ) : Except String FitResult :=
  if x.length = 0 ∨ y.length = 0 then
    .error "Inputs must not be empty."
  else if (∀ a ∈ x, ∀ b ∈ x, a = b) ∧ 1 < x.length then
    .error "Cannot calculate a linear regression if all x values are identical"
  else
    .ok ⟨fit_slope x y, fit_intercept x y, fit_r x y⟩

/-- Result of `pressure_conversion` in `app.py`: the absolute-pressure
array it returns, plus whether the non-fatal warning was printed. -/
structure ConvResult where
  p_abs : List ℝ
  warned : Bool

/-- Shallow embedding of `pressure_conversion(p_trans_pa, p_atm_pa)` in
`app.py`: `p_abs = p_atm_pa + p_trans_pa` element-wise; if any element
is `≤ 0` a warning is printed (recorded in `warned`) and the values are
returned unchanged. -/
def pressure_conversion (p_trans_pa : List ℝ) (p_atm_pa : ℝ := P_ATM_STD) :
    ConvResult :=
  let p_abs := p_trans_pa.map (fun p => p_atm_pa + p)
  { p_abs := p_abs, warned := p_abs.any (fun v => decide (v ≤ 0)) }

/-- The dictionary returned by `analyze_vaporization` in `app.py`. -/
structure AnalysisResult where
  label : String
  slope : ℝ
  intercept : ℝ
  r_squared : ℝ
  dH_vap : ℝ
  dS_vap : ℝ
  Tb : ℝ
  x : List ℝ
  y : List ℝ

/-- Step 1 of `analyze_vaporization`: `temp_k = temp_c + 273.15`. -/
def temp_k (temp_c : List ℝ) : List ℝ := temp_c.map (fun t => t + 273.15)

/-- Step 2 of `analyze_vaporization`: `x = 1.0 / temp_k`. -/
def lin_x (temp_c : List ℝ) : List ℝ :=
  (temp_k temp_c).map (fun t => 1.0 / t)

/-- Step 2 of `analyze_vaporization`: `y = np.log(p_abs)` with `p_abs`
coming from `pressure_conversion` called at its default atmospheric
pressure. -/
def lin_y (p_trans_pa : List ℝ) : List ℝ :=
  ((pressure_conversion p_trans_pa).p_abs).map Real.log

/-- Steps 3–4 of `analyze_vaporization`: the record assembled from the
regression result, exactly as `app.py` computes each field. -/
def mkResult (label : String) (res : FitResult) (x y : List ℝ) :
    AnalysisResult :=
  { label := label
    slope := res.slope
    intercept := res.intercept
    r_squared := res.rvalue ^ 2
    dH_vap := (-1.0 * res.slope * R) / 1000.0
    dS_vap := (res.intercept - Real.log P_ATM_STD) * R
    Tb := 1.0 / ((Real.log P_ATM_STD - res.intercept) / res.slope)
    x := x
    y := y }

/-- Shallow embedding of `analyze_vaporization(temp_c, p_trans_pa,
label)` in `app.py`.  The only exception that can escape is the one
propagated from `linregress`; every other step is straight-line float
arithmetic with no check. -/
def analyze_vaporization (temp_c p_trans_pa : List ℝ)
    (label : String := "Compound") : Except String AnalysisResult :=
  (linregress (lin_x temp_c) (lin_y p_trans_pa)).map
    (fun res => mkResult label res (lin_x temp_c) (lin_y p_trans_pa))

/-!
Spec-side definitions.  These follow the wording of the specification
(section 4.2 step 4 and the derived-field formulas), for comparison with
the embedded source above: the sample variance and covariance are written
with the textbook deviation formulas, normalised by the number `N` of
samples, and the linearized abscissa is written in one step as
`x_i = 1 / (T_c[i] + 273.15)`.
-/

/-- Sample variance `var(x)` of the specification: mean squared
deviation from the mean. -/
def spec_var (x : List ℝ) : ℝ := mean (x.map fun a => (a - mean x) ^ 2)

/-- Sample covariance `cov(x,y)` of the specification: sum of products
of deviations over the number `N` of samples. -/
def spec_cov (x y : List ℝ) : ℝ :=
  (List.zipWith (fun a b => (a - mean x) * (b - mean y)) x y).sum / x.length

/-- The specification's OLS estimate `slope = cov(x,y)/var(x)`. -/
def spec_slope (x y : List ℝ) : ℝ := spec_cov x y / spec_var x

/-- The specification's OLS estimate
`intercept = mean(y) - slope*mean(x)`. -/
def spec_intercept (x y : List ℝ) : ℝ := mean y - spec_slope x y * mean x

/-- The specification's linearized abscissa:
`x_i = 1/T_k[i]` with `T_k[i] = T_c[i] + 273.15`. -/
def spec_lin_x (temp_c : List ℝ) : List ℝ :=
  temp_c.map fun t => 1 / (t + 273.15)

/-! Concrete inputs used to witness the theorems below.  The kelvin
temperatures of `tcW` are `1` and `0.5`, so the linearized abscissas are
the convenient values `1` and `2`; the corresponding absolute pressures
are `101325` and `102325` Pa. -/

/-- Concrete Celsius temperatures `[-272.15, -272.65]`. -/
def tcW : List ℝ := [-272.15, -272.65]

/-- Concrete transducer pressures `[0, 1000]`. -/
def ptW : List ℝ := [0, 1000]

/-- Abbreviation for `ln 101325`. -/
def L1 : ℝ := Real.log 101325

/-- Abbreviation for `ln 102325`. -/
def L2 : ℝ := Real.log 102325

/-- Abbreviation for `ln 102325 - ln 101325`, the slope of the line
through the two linearized points of `(tcW, ptW)`. -/
def logd : ℝ := L2 - L1

/-- The record `analyze_vaporization` returns on the concrete input
`(tcW, ptW)`. -/
def recW : AnalysisResult := mkResult "w" ⟨logd, L1 - logd, 1⟩ [1, 2] [L1, L2]

/-! General lemmas about the embedded operations. -/

theorem except_map_eq_ok {ε α β : Type} (f : α → β) (e : Except ε α)
    (b : β) : e.map f = .ok b ↔ ∃ a, e = .ok a ∧ b = f a := by
  cases e <;> simp [Except.map, eq_comm]

theorem linregress_eq_ok (x y : List ℝ)
    (h0 : ¬(x.length = 0 ∨ y.length = 0))
    (h1 : ¬((∀ a ∈ x, ∀ b ∈ x, a = b) ∧ 1 < x.length)) :
    linregress x y = .ok ⟨fit_slope x y, fit_intercept x y, fit_r x y⟩ := by
  unfold linregress
  rw [if_neg h0, if_neg h1]

theorem linregress_error_iff (x y : List ℝ) :
    (∃ e, linregress x y = .error e) ↔
      (x.length = 0 ∨ y.length = 0) ∨
        ((∀ a ∈ x, ∀ b ∈ x, a = b) ∧ 1 < x.length) := by
  unfold linregress
  by_cases h0 : x.length = 0 ∨ y.length = 0
  · rw [if_pos h0]
    exact iff_of_true ⟨_, rfl⟩ (Or.inl h0)
  · rw [if_neg h0]
    by_cases h1 : (∀ a ∈ x, ∀ b ∈ x, a = b) ∧ 1 < x.length
    · rw [if_pos h1]
      exact iff_of_true ⟨_, rfl⟩ (Or.inr h1)
    · rw [if_neg h1]
      push_neg at h0
      simp [h0, h1, List.length_eq_zero.not.mp h0.1,
        List.length_eq_zero.not.mp h0.2]

theorem zipWith_map_self (f : ℝ → ℝ → ℝ) (g : ℝ → ℝ) (x : List ℝ) :
    List.zipWith f x (x.map g) = x.map fun a => f a (g a) := by
  induction x with
  | nil => rfl
  | cons a xs ih => simp [ih]

theorem sum_zipWith_zero_right (f g : ℝ → ℝ) (x y : List ℝ)
    (h : ∀ b ∈ y, g b = 0) :
    (List.zipWith (fun a b => f a * g b) x y).sum = 0 := by
  induction x generalizing y with
  | nil => simp
  | cons a xs ih =>
    cases y with
    | nil => simp
    | cons b ys =>
      rw [List.zipWith_cons_cons, List.sum_cons,
        h b (List.mem_cons_self _ _),
        ih ys (fun u hu => h u (List.mem_cons_of_mem _ hu))]
      ring

theorem sum_map_affine (x : List ℝ) (s c : ℝ) :
    (x.map fun v => s * v + c).sum = s * x.sum + c * x.length := by
  induction x with
  | nil => simp
  | cons a xs ih =>
    rw [List.map_cons, List.sum_cons, List.sum_cons, ih, List.length_cons]
    push_cast
    ring

theorem sum_of_all_eq {y : List ℝ} {c : ℝ} (h : ∀ u ∈ y, u = c) :
    y.sum = c * y.length := by
  induction y with
  | nil => simp
  | cons a ys ih =>
    rw [List.sum_cons, ih (fun u hu => h u (List.mem_cons_of_mem _ hu)),
      h a (List.mem_cons_self _ _), List.length_cons]
    push_cast
    ring

theorem mean_of_all_eq {y : List ℝ} {c : ℝ} (hy : y ≠ [])
    (h : ∀ u ∈ y, u = c) : mean y = c := by
  unfold mean
  rw [sum_of_all_eq h]
  have hn : (y.length : ℝ) ≠ 0 :=
    Nat.cast_ne_zero.mpr (by simpa [List.length_eq_zero] using hy)
  field_simp
  try ring

theorem mean_map_affine (x : List ℝ) (hx : x ≠ []) (s c : ℝ) :
    mean (x.map fun v => s * v + c) = s * mean x + c := by
  unfold mean
  rw [List.length_map, sum_map_affine]
  have hn : (x.length : ℝ) ≠ 0 :=
    Nat.cast_ne_zero.mpr (by simpa [List.length_eq_zero] using hx)
  field_simp
  try ring

theorem covb_self (x : List ℝ) :
    covb x x = mean (x.map fun a => (a - mean x) ^ 2) := by
  simp only [covb, List.zipWith_same, pow_two]

theorem covb_self_nonneg (x : List ℝ) : 0 ≤ covb x x := by
  rw [covb_self]
  unfold mean
  apply div_nonneg
  · apply List.sum_nonneg
    intro a ha
    obtain ⟨b, _, rfl⟩ := List.mem_map.mp ha
    positivity
  · positivity

theorem covb_self_pos {x : List ℝ} {a b : ℝ} (ha : a ∈ x) (hb : b ∈ x)
    (hab : a ≠ b) : 0 < covb x x := by
  rw [covb_self]
  obtain ⟨c, hc, hcm⟩ : ∃ c ∈ x, c ≠ mean x := by
    by_cases h : a = mean x
    · exact ⟨b, hb, fun hbm => hab (h.trans hbm.symm)⟩
    · exact ⟨a, ha, h⟩
  unfold mean
  apply div_pos
  · have hmem : (c - mean x) ^ 2 ∈ x.map (fun a => (a - mean x) ^ 2) :=
      List.mem_map_of_mem _ hc
    have hpos : 0 < (c - mean x) ^ 2 :=
      lt_of_le_of_ne (sq_nonneg _)
        (Ne.symm (pow_ne_zero 2 (sub_ne_zero.mpr hcm)))
    calc (0 : ℝ) < (c - mean x) ^ 2 := hpos
      _ ≤ (x.map (fun a => (a - mean x) ^ 2)).sum :=
        List.single_le_sum
          (fun u hu => by
            obtain ⟨d, _, rfl⟩ := List.mem_map.mp hu
            positivity)
          _ hmem
  · rw [List.length_map]
    exact_mod_cast List.length_pos.mpr (List.ne_nil_of_mem ha)

theorem mean_map_mul (x : List ℝ) (s : ℝ) (f : ℝ → ℝ) :
    mean (x.map fun a => s * f a) = s * mean (x.map f) := by
  unfold mean
  rw [List.length_map, List.length_map, List.sum_map_mul_left, mul_div_assoc]

theorem covb_const_right (x : List ℝ) {y : List ℝ} {c : ℝ} (hy : y ≠ [])
    (h : ∀ u ∈ y, u = c) : covb x y = 0 := by
  have h0 : (List.zipWith (fun a b => (a - mean x) * (b - mean y)) x y).sum
      = 0 :=
    sum_zipWith_zero_right (fun a => a - mean x) (fun b => b - mean y) x y
      (fun b hb => by simp only [h b hb, mean_of_all_eq hy h, sub_self])
  have h1 : covb x y
      = (List.zipWith (fun a b => (a - mean x) * (b - mean y)) x y).sum /
        (List.zipWith (fun a b => (a - mean x) * (b - mean y)) x y).length :=
    rfl
  rw [h1, h0]
  exact zero_div _

theorem covb_mul_self (x : List ℝ) :
    covb x x = mean (x.map fun a => (a - mean x) * (a - mean x)) := by
  simp only [covb, List.zipWith_same]

theorem covb_map_affine (x : List ℝ) (hx : x ≠ []) (s c : ℝ) :
    covb x (x.map fun v => s * v + c) = s * covb x x := by
  have key : List.zipWith
      (fun a b => (a - mean x) * (b - mean (x.map fun v => s * v + c))) x
      (x.map fun v => s * v + c)
      = x.map fun a => s * ((a - mean x) * (a - mean x)) := by
    rw [zipWith_map_self]
    refine List.map_congr_left (fun a _ => ?_)
    simp only [mean_map_affine x hx s c]
    ring
  have h1 : covb x (x.map fun v => s * v + c) = mean (List.zipWith
      (fun a b => (a - mean x) * (b - mean (x.map fun v => s * v + c))) x
      (x.map fun v => s * v + c)) := rfl
  rw [h1, key, mean_map_mul, covb_mul_self]

theorem covb_map_affine_self (x : List ℝ) (hx : x ≠ []) (s c : ℝ) :
    covb (x.map fun v => s * v + c) (x.map fun v => s * v + c)
      = s ^ 2 * covb x x := by
  have key : List.zipWith
      (fun a b => (a - mean (x.map fun v => s * v + c)) *
        (b - mean (x.map fun v => s * v + c)))
      (x.map fun v => s * v + c) (x.map fun v => s * v + c)
      = x.map fun a => s ^ 2 * ((a - mean x) * (a - mean x)) := by
    rw [List.zipWith_same, List.map_map]
    refine List.map_congr_left (fun a _ => ?_)
    simp only [Function.comp_apply, mean_map_affine x hx s c]
    ring
  have h1 : covb (x.map fun v => s * v + c) (x.map fun v => s * v + c)
      = mean (List.zipWith
        (fun a b => (a - mean (x.map fun v => s * v + c)) *
          (b - mean (x.map fun v => s * v + c)))
        (x.map fun v => s * v + c) (x.map fun v => s * v + c)) := rfl
  rw [h1, key, mean_map_mul, covb_mul_self]

theorem fit_r_mem (x y : List ℝ) : -1 ≤ fit_r x y ∧ fit_r x y ≤ 1 := by
  unfold fit_r
  split
  · norm_num
  · split
    · norm_num
    · split
      · norm_num
      · constructor
        · linarith [not_lt.mp (by assumption : ¬ covb x y /
            Real.sqrt (covb x x * covb y y) < -1)]
        · linarith [not_lt.mp (by assumption : ¬ covb x y /
            Real.sqrt (covb x x * covb y y) > 1)]

theorem linregress_ok_elim {x y : List ℝ} {res : FitResult}
    (h : linregress x y = .ok res) :
    res = ⟨fit_slope x y, fit_intercept x y, fit_r x y⟩ := by
  unfold linregress at h
  by_cases h0 : x.length = 0 ∨ y.length = 0
  · rw [if_pos h0] at h
    exact absurd h (by simp)
  · rw [if_neg h0] at h
    by_cases h1 : (∀ a ∈ x, ∀ b ∈ x, a = b) ∧ 1 < x.length
    · rw [if_pos h1] at h
      exact absurd h (by simp)
    · rw [if_neg h1] at h
      exact (Except.ok.inj h).symm

theorem spec_var_eq_covb (x : List ℝ) : spec_var x = covb x x := by
  unfold spec_var
  rw [covb_self]

theorem spec_cov_eq_covb (x y : List ℝ) (hlen : x.length = y.length) :
    spec_cov x y = covb x y := by
  unfold spec_cov covb mean
  rw [List.length_zipWith, ← hlen, min_self]

theorem lin_x_eq_spec (tc : List ℝ) : lin_x tc = spec_lin_x tc := by
  unfold lin_x temp_k spec_lin_x
  rw [List.map_map]
  refine List.map_congr_left (fun t _ => ?_)
  simp only [Function.comp_apply]
  norm_num

theorem lin_y_eq (pt : List ℝ) :
    lin_y pt = pt.map fun p => Real.log (P_ATM_STD + p) := by
  simp [lin_y, pressure_conversion, List.map_map, Function.comp]

theorem analyze_ok_iff (tc pt : List ℝ) (lbl : String)
    (rec : AnalysisResult) :
    analyze_vaporization tc pt lbl = .ok rec ↔
      ∃ res, linregress (lin_x tc) (lin_y pt) = .ok res ∧
        rec = mkResult lbl res (lin_x tc) (lin_y pt) := by
  unfold analyze_vaporization
  exact except_map_eq_ok _ _ _

theorem analyze_error_iff (tc pt : List ℝ) (lbl : String) :
    (∃ e, analyze_vaporization tc pt lbl = .error e) ↔
      ((lin_x tc).length = 0 ∨ (lin_y pt).length = 0) ∨
        ((∀ a ∈ lin_x tc, ∀ b ∈ lin_x tc, a = b) ∧
          1 < (lin_x tc).length) := by
  rw [← linregress_error_iff]
  unfold analyze_vaporization
  constructor
  · rintro ⟨e, he⟩
    cases hl : linregress (lin_x tc) (lin_y pt) with
    | error e' => exact ⟨e', rfl⟩
    | ok r =>
      rw [hl] at he
      exact absurd he (by simp [Except.map])
  · rintro ⟨e, he⟩
    rw [he]
    exact ⟨e, rfl⟩

theorem analyze_ok_of (tc pt : List ℝ) (lbl : String)
    (h0 : ¬((lin_x tc).length = 0 ∨ (lin_y pt).length = 0))
    (h1 : ¬((∀ a ∈ lin_x tc, ∀ b ∈ lin_x tc, a = b) ∧
      1 < (lin_x tc).length)) :
    analyze_vaporization tc pt lbl =
      .ok (mkResult lbl
        ⟨fit_slope (lin_x tc) (lin_y pt), fit_intercept (lin_x tc) (lin_y pt),
          fit_r (lin_x tc) (lin_y pt)⟩
        (lin_x tc) (lin_y pt)) := by
  unfold analyze_vaporization
  rw [linregress_eq_ok _ _ h0 h1]
  rfl

theorem L1_lt_L2 : L1 < L2 :=
  Real.log_lt_log (by norm_num) (by norm_num)

theorem logd_pos : 0 < logd := sub_pos.mpr L1_lt_L2

theorem logd_ne : logd ≠ 0 := ne_of_gt logd_pos

theorem lin_x_W : lin_x tcW = [1, 2] := by
  unfold lin_x temp_k tcW
  norm_num

theorem lin_y_W : lin_y ptW = [L1, L2] := by
  rw [lin_y_eq]
  unfold ptW P_ATM_STD L1 L2
  norm_num

theorem mean_pair (a b : ℝ) : mean [a, b] = (a + b) / 2 := by
  unfold mean
  simp

theorem covb_pair (a b c d : ℝ) :
    covb [a, b] [c, d] = (a - b) * (c - d) / 4 := by
  simp only [covb, List.zipWith_cons_cons, List.zipWith_nil_left, mean_pair]
  ring

theorem fit_slope_W : fit_slope [1, 2] [L1, L2] = logd := by
  unfold fit_slope
  rw [covb_pair, covb_pair]
  unfold logd
  field_simp
  ring

theorem fit_intercept_W : fit_intercept [1, 2] [L1, L2] = L1 - logd := by
  unfold fit_intercept
  rw [fit_slope_W, mean_pair, mean_pair]
  unfold logd
  ring

theorem fit_r_W : fit_r [1, 2] [L1, L2] = 1 := by
  unfold fit_r
  rw [covb_pair, covb_pair, covb_pair]
  have e1 : ((1 : ℝ) - 2) * (L1 - L2) / 4 = logd / 4 := by
    unfold logd
    ring
  have e2 : (((1 : ℝ) - 2) * ((1 : ℝ) - 2) / 4) * ((L1 - L2) * (L1 - L2) / 4)
      = (logd / 4) ^ 2 := by
    unfold logd
    ring
  have hq : (0 : ℝ) < logd / 4 := div_pos logd_pos (by norm_num)
  rw [e1, e2, Real.sqrt_sq hq.le]
  rw [if_neg (ne_of_gt hq)]
  rw [div_self (ne_of_gt hq)]
  rw [if_neg (by norm_num), if_neg (by norm_num)]

theorem linregress_W :
    linregress [1, 2] [L1, L2] = .ok ⟨logd, L1 - logd, 1⟩ := by
  rw [linregress_eq_ok _ _ (by norm_num)
    (fun h => by
      have h12 := h.1 1 (by simp) 2 (by simp)
      norm_num at h12)]
  rw [fit_slope_W, fit_intercept_W, fit_r_W]

theorem log_P_ATM_STD : Real.log P_ATM_STD = L1 := by
  unfold P_ATM_STD L1
  norm_num

theorem analyze_W : analyze_vaporization tcW ptW "w" = .ok recW := by
  unfold analyze_vaporization
  rw [lin_x_W, lin_y_W, linregress_W]
  rfl

theorem recW_slope : recW.slope = logd := rfl

theorem recW_intercept : recW.intercept = L1 - logd := rfl

theorem recW_r_squared : recW.r_squared = 1 := by
  show (1 : ℝ) ^ 2 = 1
  norm_num

theorem recW_dH : recW.dH_vap = -(logd * R) / 1000 := by
  show (-1.0 * logd * R) / 1000.0 = -(logd * R) / 1000
  norm_num

theorem recW_dS : recW.dS_vap = -(logd * R) := by
  show ((L1 - logd) - Real.log P_ATM_STD) * R = -(logd * R)
  rw [log_P_ATM_STD]
  ring

theorem recW_Tb : recW.Tb = 1 := by
  show 1.0 / ((Real.log P_ATM_STD - (L1 - logd)) / logd) = 1
  rw [log_P_ATM_STD]
  have e : L1 - (L1 - logd) = logd := by ring
  rw [e, div_self logd_ne]
  norm_num

theorem recW_x : recW.x = [1, 2] := rfl

theorem recW_y : recW.y = [L1, L2] := rfl

/-! The claims. -/

/-- C6: for every real-valued sequence of transducer pressures and every
positive atmospheric pressure scalar, the Pressure Converter returns a
sequence of the same length and order whose i-th element equals
`atmospheric_pressure + transducer_pressures[i]`. -/
theorem C6_converter_elementwise_sum (pt : List ℝ) (patm : ℝ)
    (hpatm : 0 < patm) :
    ((pressure_conversion pt patm).p_abs).length = pt.length ∧
      ∀ i : ℕ, ((pressure_conversion pt patm).p_abs)[i]? =
        (pt[i]?).map (fun p => patm + p) := by
  constructor
  · simp [pressure_conversion]
  · intro i
    simp [pressure_conversion]

/-- Witness for C6 at the concrete input `[5, -7]` with atmospheric
pressure `2`. -/
theorem C6_converter_elementwise_sum_witness :
    ((pressure_conversion [(5 : ℝ), -7] 2).p_abs).length =
        ([(5 : ℝ), -7]).length ∧
      ∀ i : ℕ, ((pressure_conversion [(5 : ℝ), -7] 2).p_abs)[i]? =
        (([(5 : ℝ), -7])[i]?).map (fun p => 2 + p) :=
  C6_converter_elementwise_sum [(5 : ℝ), -7] 2 (by norm_num)

/-- C7: the Pressure Converter never raises; it emits its non-fatal
warning exactly when some output element is `≤ 0`, and in all cases
returns the element-wise sums unchanged. -/
theorem C7_converter_soft_warning (pt : List ℝ) (patm : ℝ) :
    ((pressure_conversion pt patm).warned = true ↔
      ∃ v ∈ (pressure_conversion pt patm).p_abs, v ≤ 0) ∧
    (pressure_conversion pt patm).p_abs = pt.map (fun p => patm + p) := by
  constructor
  · simp [pressure_conversion, List.any_eq_true]
  · rfl

/-- C5: for every valid input with at least two samples, distinct
temperatures and positive absolute pressures, the record returned by
`analyze_vaporization` has `r_squared` in `[0, 1]`. -/
theorem C5_r_squared_unit_interval (tc pt : List ℝ) (lbl : String)
    (rec : AnalysisResult) (hN : 2 ≤ tc.length)
    (hdist : ∃ a ∈ tc, ∃ b ∈ tc, a ≠ b)
    (hpos : ∀ p ∈ (pressure_conversion pt).p_abs, 0 < p)
    (h : analyze_vaporization tc pt lbl = .ok rec) :
    0 ≤ rec.r_squared ∧ rec.r_squared ≤ 1 := by
  obtain ⟨res, hres, rfl⟩ := (analyze_ok_iff tc pt lbl rec).mp h
  rw [linregress_ok_elim hres]
  have hr := fit_r_mem (lin_x tc) (lin_y pt)
  refine ⟨sq_nonneg _, ?_⟩
  exact (sq_le_one_iff_abs_le_one _).mpr (abs_le.mpr hr)

/-- Witness for C5 at the concrete input `(tcW, ptW)`. -/
theorem C5_r_squared_unit_interval_witness :
    0 ≤ recW.r_squared ∧ recW.r_squared ≤ 1 :=
  C5_r_squared_unit_interval tcW ptW "w" recW
    (by norm_num [tcW])
    ⟨-272.15, by simp [tcW], -272.65, by simp [tcW], by norm_num⟩
    (by
      intro p hp
      simp [pressure_conversion, ptW, P_ATM_STD] at hp
      rcases hp with rfl | rfl <;> norm_num)
    analyze_W

/-- C10: `P_ATM_STD` is exactly `101325.0`, and `analyze_vaporization`
always calls the Pressure Converter at that default, so the ordinate of
every linearized point of a returned record is
`ln(transducer_pressure[i] + 101325.0)`. -/
theorem C10_default_atmosphere :
    P_ATM_STD = 101325 ∧
    ∀ (tc pt : List ℝ) (lbl : String) (rec : AnalysisResult),
      analyze_vaporization tc pt lbl = .ok rec →
        rec.y = pt.map (fun p => Real.log (p + 101325)) := by
  refine ⟨by unfold P_ATM_STD; norm_num, ?_⟩
  intro tc pt lbl rec h
  obtain ⟨res, hres, rfl⟩ := (analyze_ok_iff tc pt lbl rec).mp h
  show lin_y pt = _
  rw [lin_y_eq]
  refine List.map_congr_left (fun p _ => ?_)
  unfold P_ATM_STD
  rw [add_comm]
  norm_num

/-- Witness for C10 at the concrete input `(tcW, ptW)`. -/
theorem C10_default_atmosphere_witness :
    recW.y = ptW.map (fun p => Real.log (p + 101325)) :=
  C10_default_atmosphere.2 tcW ptW "w" recW analyze_W

/-- C9: for every record returned by `analyze_vaporization` whose slope
and entropy of vaporization are non-zero, the derived fields satisfy
`Tb * dS_vap = 1000 * dH_vap` exactly. -/
theorem C9_derived_fields_identity (tc pt : List ℝ) (lbl : String)
    (rec : AnalysisResult)
    (h : analyze_vaporization tc pt lbl = .ok rec)
    (hs : rec.slope ≠ 0) (hdS : rec.dS_vap ≠ 0) :
    rec.Tb * rec.dS_vap = 1000 * rec.dH_vap := by
  obtain ⟨res, hres, rfl⟩ := (analyze_ok_iff tc pt lbl rec).mp h
  have hs' : res.slope ≠ 0 := hs
  have hd : (res.intercept - Real.log P_ATM_STD) * R ≠ 0 := hdS
  have hsub : Real.log P_ATM_STD - res.intercept ≠ 0 := by
    intro hc
    apply hd
    have e : res.intercept - Real.log P_ATM_STD = 0 := by linarith
    rw [e, zero_mul]
  show (1.0 / ((Real.log P_ATM_STD - res.intercept) / res.slope)) *
      ((res.intercept - Real.log P_ATM_STD) * R) =
    1000 * ((-1.0 * res.slope * R) / 1000.0)
  have e0 : (1.0 : ℝ) = 1 := by norm_num
  have e1 : (1000.0 : ℝ) = 1000 := by norm_num
  rw [e0, e1]
  field_simp
  ring

/-- Witness for C9 at the concrete input `(tcW, ptW)`. -/
theorem C9_derived_fields_identity_witness :
    recW.Tb * recW.dS_vap = 1000 * recW.dH_vap :=
  C9_derived_fields_identity tcW ptW "w" recW analyze_W
    (by rw [recW_slope]; exact logd_ne)
    (by
      rw [recW_dS]
      intro hc
      have hR : (R : ℝ) ≠ 0 := by unfold R; norm_num
      exact logd_ne ((mul_eq_zero.mp (neg_eq_zero.mp hc)).resolve_right hR))

/-- C1: whenever `analyze_vaporization` succeeds, the returned record
equals the specification's reference pipeline: the linearized points are
`x_i = 1/(T_c[i] + 273.15)` and `y_i = ln(P_abs[i])` with the absolute
pressures from the Pressure Converter, slope and intercept are the
closed-form OLS estimates `cov(x,y)/var(x)` and
`mean(y) - slope*mean(x)`, and the derived fields are
`(-slope*R)/1000`, `(intercept - ln(P_ATM_STD))*R` and
`1/((ln(P_ATM_STD) - intercept)/slope)`. -/
theorem C1_matches_reference_pipeline (tc pt : List ℝ) (lbl : String)
    (rec : AnalysisResult) (hlen : tc.length = pt.length)
    (h : analyze_vaporization tc pt lbl = .ok rec) :
    rec.x = spec_lin_x tc ∧
    rec.y = lin_y pt ∧
    rec.slope = spec_slope (spec_lin_x tc) (lin_y pt) ∧
    rec.intercept = spec_intercept (spec_lin_x tc) (lin_y pt) ∧
    rec.dH_vap = (-(spec_slope (spec_lin_x tc) (lin_y pt)) * R) / 1000 ∧
    rec.dS_vap =
      (spec_intercept (spec_lin_x tc) (lin_y pt) - Real.log P_ATM_STD) * R ∧
    rec.Tb = 1 / ((Real.log P_ATM_STD -
      spec_intercept (spec_lin_x tc) (lin_y pt)) /
      spec_slope (spec_lin_x tc) (lin_y pt)) := by
  obtain ⟨res, hres, rfl⟩ := (analyze_ok_iff tc pt lbl rec).mp h
  obtain rfl : res = ⟨fit_slope (lin_x tc) (lin_y pt),
      fit_intercept (lin_x tc) (lin_y pt), fit_r (lin_x tc) (lin_y pt)⟩ :=
    linregress_ok_elim hres
  have hlen' : (lin_x tc).length = (lin_y pt).length := by
    simp [lin_x, temp_k, lin_y, pressure_conversion, hlen]
  have hsl0 : spec_slope (lin_x tc) (lin_y pt)
      = fit_slope (lin_x tc) (lin_y pt) := by
    unfold spec_slope fit_slope
    rw [spec_var_eq_covb, spec_cov_eq_covb _ _ hlen']
  have hsl : spec_slope (spec_lin_x tc) (lin_y pt)
      = fit_slope (lin_x tc) (lin_y pt) := by
    rw [← lin_x_eq_spec]
    exact hsl0
  have hintc : spec_intercept (spec_lin_x tc) (lin_y pt)
      = fit_intercept (lin_x tc) (lin_y pt) := by
    unfold spec_intercept fit_intercept
    rw [← lin_x_eq_spec, hsl0]
  refine ⟨lin_x_eq_spec tc, rfl, hsl.symm, hintc.symm, ?_, ?_, ?_⟩
  · show (-1.0 * fit_slope (lin_x tc) (lin_y pt) * R) / 1000.0 = _
    rw [hsl]
    norm_num
  · show (fit_intercept (lin_x tc) (lin_y pt) - Real.log P_ATM_STD) * R = _
    rw [hintc]
  · show 1.0 / ((Real.log P_ATM_STD -
      fit_intercept (lin_x tc) (lin_y pt)) /
      fit_slope (lin_x tc) (lin_y pt)) = _
    rw [hsl, hintc]
    norm_num

/-- Witness for C1 at the concrete input `(tcW, ptW)`: the slope clause
of the instantiated conclusion. -/
theorem C1_matches_reference_pipeline_witness :
    recW.slope = spec_slope (spec_lin_x tcW) (lin_y ptW) :=
  (C1_matches_reference_pipeline tcW ptW "w" recW rfl analyze_W).2.2.1

/-- C2 counterexample: on `[-280, -290]` both kelvin temperatures are
`≤ 0` (`-6.85` and `-16.85`), yet `analyze_vaporization` raises nothing
and returns a record — there is no temperature or pressure positivity
check anywhere in `analyze_vaporization`. -/
theorem C2_counterexample :
    (-280 + 273.15 ≤ (0 : ℝ)) ∧ (-290 + 273.15 ≤ (0 : ℝ)) ∧
      ∃ rec, analyze_vaporization [-280, -290] [0, 1000] "c" = .ok rec := by
  have hx : lin_x [-280, -290] = [-(20 / 137), -(20 / 337)] := by
    simp only [lin_x, temp_k, List.map_cons, List.map_nil]
    norm_num
  refine ⟨by norm_num, by norm_num, _, analyze_ok_of _ _ _ ?_ ?_⟩
  · simp [hx, lin_y, pressure_conversion]
  · rw [hx]
    rintro ⟨hall, -⟩
    have h12 := hall (-(20 / 137)) (by simp) (-(20 / 337)) (by simp)
    norm_num at h12

/-- C2 amended: `analyze_vaporization` performs no positivity validation
at all: for same-length inputs whose linearized x values are not all
identical it returns a record even when some kelvin temperature is
`≤ 0` or some absolute pressure is `≤ 0`; no `DomainError` exists in the
program, and the out-of-domain reciprocal/logarithm values flow straight
into the fit. -/
theorem C2_amended_no_positivity_check (tc pt : List ℝ) (lbl : String)
    (hlen : pt.length = tc.length)
    (hbad : (∃ t ∈ temp_k tc, t ≤ 0) ∨
      ∃ p ∈ (pressure_conversion pt).p_abs, p ≤ 0)
    (a b : ℝ) (ha : a ∈ lin_x tc) (hb : b ∈ lin_x tc) (hab : a ≠ b) :
    ∃ rec, analyze_vaporization tc pt lbl = .ok rec := by
  refine ⟨_, analyze_ok_of tc pt lbl ?_ ?_⟩
  · have hxlen : (lin_x tc).length = tc.length := by simp [lin_x, temp_k]
    have hylen : (lin_y pt).length = tc.length := by
      simp [lin_y, pressure_conversion, hlen]
    have hne : (lin_x tc).length ≠ 0 := by
      intro hc
      exact absurd (List.length_eq_zero.mp hc ▸ ha) (List.not_mem_nil a)
    rintro (h0 | h0)
    · exact hne h0
    · rw [hylen, ← hxlen] at h0
      exact hne h0
  · rintro ⟨hall, -⟩
    exact hab (hall a ha b hb)

/-- Witness for the amended C2, exercising the non-positive-pressure
branch: the transducer pressures `[-101325, -201325]` give absolute
pressures `[0, -100000]` (both `≤ 0`, so `ln` is undefined on them), the
kelvin temperatures are `-1` and `-2`, and the analysis still returns a
record. -/
theorem C2_amended_no_positivity_check_witness :
    (-274.15 + 273.15 ≤ (0 : ℝ)) ∧
      (0 : ℝ) ∈ (pressure_conversion [-101325, -201325]).p_abs ∧
      ∃ rec, analyze_vaporization [-274.15, -275.15] [-101325, -201325] "n"
        = .ok rec := by
  have hp : (pressure_conversion [-101325, -201325]).p_abs
      = [0, -100000] := by
    simp only [pressure_conversion, List.map_cons, List.map_nil]
    norm_num [P_ATM_STD]
  have hx : lin_x [-274.15, -275.15] = [-1, -(1 / 2)] := by
    simp only [lin_x, temp_k, List.map_cons, List.map_nil]
    norm_num
  refine ⟨by norm_num, by rw [hp]; simp, ?_⟩
  exact C2_amended_no_positivity_check [-274.15, -275.15]
    [-101325, -201325] "n" rfl
    (Or.inr ⟨0, by rw [hp]; simp, le_refl 0⟩)
    (-1) (-(1 / 2)) (by rw [hx]; simp) (by rw [hx]; simp) (by norm_num)

/-- C3 counterexample: a single sample does not raise.  The regression
computes `0/0` statistics (`NaN` in float semantics) without any
exception, and `analyze_vaporization [25] [0]` returns a record instead
of failing with "regression underdetermined". -/
theorem C3_counterexample :
    ∃ rec, analyze_vaporization [25] [0] "c" = .ok rec := by
  refine ⟨_, analyze_ok_of _ _ _ ?_ ?_⟩
  · simp [lin_x, temp_k, lin_y, pressure_conversion]
  · rintro ⟨-, hlt⟩
    simp [lin_x, temp_k] at hlt

/-- C3 amended: with equal-length inputs, `analyze_vaporization` fails
(by propagating the regression routine's `ValueError` — the program has
no `DomainError`) precisely when there are zero samples, or at least two
samples whose linearized x values all coincide.  In particular a single
sample does not raise. -/
theorem C3_amended_failure_characterization (tc pt : List ℝ)
    (lbl : String) (hlen : pt.length = tc.length) :
    (∃ e, analyze_vaporization tc pt lbl = .error e) ↔
      (tc = [] ∨ ((∀ a ∈ lin_x tc, ∀ b ∈ lin_x tc, a = b) ∧
        1 < tc.length)) := by
  rw [analyze_error_iff]
  have hx : (lin_x tc).length = tc.length := by simp [lin_x, temp_k]
  have hy : (lin_y pt).length = tc.length := by
    simp [lin_y, pressure_conversion, hlen]
  rw [hx, hy]
  simp [List.length_eq_zero]

/-- Witness for the amended C3: two identical temperatures make the
linearized x values coincide, and the analysis fails. -/
theorem C3_amended_failure_characterization_witness :
    ∃ e, analyze_vaporization [25, 25] [0, 1000] "c" = .error e :=
  (C3_amended_failure_characterization [25, 25] [0, 1000] "c" rfl).mpr
    (Or.inr ⟨fun a ha b hb => by
      simp [lin_x, temp_k] at ha hb
      rw [ha, hb], by norm_num⟩)

/-- C4 counterexample: on `(tcW, [0, 0])` all y values are equal, the
fitted slope is `0`, and `analyze_vaporization` raises nothing — it
returns the record (whose boiling-point field is the junk value of the
division by zero, `inf`/`NaN` in float semantics). -/
theorem C4_counterexample :
    ∃ rec, analyze_vaporization tcW [0, 0] "c" = .ok rec ∧
      rec.slope = 0 := by
  have hy : lin_y [0, 0] = [L1, L1] := by
    rw [lin_y_eq]
    unfold P_ATM_STD L1
    norm_num
  refine ⟨_, analyze_ok_of tcW [0, 0] "c" ?_ ?_, ?_⟩
  · simp [lin_x_W, hy]
  · rw [lin_x_W]
    rintro ⟨hall, -⟩
    have h12 := hall 1 (by simp) 2 (by simp)
    norm_num at h12
  · show fit_slope (lin_x tcW) (lin_y [0, 0]) = 0
    rw [lin_x_W, hy]
    unfold fit_slope
    rw [covb_pair]
    simp

/-- C4 amended: a zero fitted slope does not raise.  Whenever the inputs
have equal lengths, the linearized x values are not all identical, and
all y values coincide (so the fitted slope is `0`), the analysis returns
its record with `slope = 0`; the boiling-point back-solve divides by
zero (producing `inf`/`NaN` in float semantics) instead of failing with
"boiling point undefined". -/
theorem C4_amended_zero_slope_no_raise (tc pt : List ℝ) (lbl : String)
    (hlen : pt.length = tc.length)
    (a b : ℝ) (ha : a ∈ lin_x tc) (hb : b ∈ lin_x tc) (hab : a ≠ b)
    (hy : ∀ u ∈ lin_y pt, ∀ v ∈ lin_y pt, u = v) :
    ∃ rec, analyze_vaporization tc pt lbl = .ok rec ∧ rec.slope = 0 := by
  have hxlen : (lin_x tc).length = tc.length := by simp [lin_x, temp_k]
  have hylen : (lin_y pt).length = tc.length := by
    simp [lin_y, pressure_conversion, hlen]
  have hxne : (lin_x tc).length ≠ 0 := by
    intro hc
    exact absurd (List.length_eq_zero.mp hc ▸ ha) (List.not_mem_nil a)
  have hyne : lin_y pt ≠ [] := by
    intro hc
    apply hxne
    rw [hxlen, ← hylen, hc]
    rfl
  obtain ⟨c, ys, hcons⟩ := List.exists_cons_of_ne_nil hyne
  have hconst : ∀ u ∈ lin_y pt, u = c := fun u hu =>
    hy u hu c (by rw [hcons]; exact List.mem_cons_self _ _)
  refine ⟨_, analyze_ok_of tc pt lbl ?_ ?_, ?_⟩
  · rintro (h0 | h0)
    · exact hxne h0
    · rw [hylen, ← hxlen] at h0
      exact hxne h0
  · rintro ⟨hall, -⟩
    exact hab (hall a ha b hb)
  · show fit_slope (lin_x tc) (lin_y pt) = 0
    unfold fit_slope
    rw [covb_const_right (lin_x tc) hyne hconst, zero_div]

/-- Witness for the amended C4: kelvin temperatures `0.5` and `0.25`
with equal transducer pressures. -/
theorem C4_amended_zero_slope_no_raise_witness :
    ∃ rec, analyze_vaporization [-272.65, -272.9] [0, 0] "z" = .ok rec ∧
      rec.slope = 0 := by
  have hx : lin_x [-272.65, -272.9] = [2, 4] := by
    simp only [lin_x, temp_k, List.map_cons, List.map_nil]
    norm_num
  have hy : lin_y [0, 0] = [L1, L1] := by
    rw [lin_y_eq]
    unfold P_ATM_STD L1
    norm_num
  exact C4_amended_zero_slope_no_raise [-272.65, -272.9] [0, 0] "z" rfl
    2 4 (by rw [hx]; simp) (by rw [hx]; simp) (by norm_num)
    (fun u hu v hv => by
      rw [hy] at hu hv
      simp at hu hv
      rw [hu, hv])

/-- C8 counterexample: on `[-272.15, -272.9]` with equal transducer
pressures the linearized points `(1, L1)` and `(4, L1)` lie exactly on
the line with slope `0` and intercept `L1`, there are `N = 2` samples
with distinct x, yet the returned `r_squared` is `0`, not `1` — scipy
sets `r = 0` when its denominator `sqrt(ssxm * ssym)` vanishes. -/
theorem C8_counterexample :
    ∃ rec, analyze_vaporization [-272.15, -272.9] [0, 0] "c" = .ok rec ∧
      rec.x = [1, 4] ∧ rec.y = [L1, L1] ∧
      rec.y = (rec.x).map (fun v => 0 * v + L1) ∧
      rec.r_squared = 0 := by
  have hx : lin_x [-272.15, -272.9] = [1, 4] := by
    simp only [lin_x, temp_k, List.map_cons, List.map_nil]
    norm_num
  have hy : lin_y [0, 0] = [L1, L1] := by
    rw [lin_y_eq]
    unfold P_ATM_STD L1
    norm_num
  refine ⟨_, analyze_ok_of _ _ _ ?_ ?_, ?_, ?_, ?_, ?_⟩
  · simp [hx, hy]
  · rw [hx]
    rintro ⟨hall, -⟩
    have h14 := hall 1 (by simp) 4 (by simp)
    norm_num at h14
  · exact hx
  · exact hy
  · show lin_y [0, 0] = (lin_x [-272.15, -272.9]).map _
    rw [hx, hy]
    simp
  · show (fit_r (lin_x [-272.15, -272.9]) (lin_y [0, 0])) ^ 2 = 0
    rw [hx, hy]
    have hyy : covb [L1, L1] [L1, L1] = 0 := by
      rw [covb_pair]
      simp
    unfold fit_r
    rw [hyy, mul_zero, Real.sqrt_zero, if_pos rfl]
    norm_num

/-- C8 amended: the round trip holds for every non-horizontal line.  If
the linearized points lie exactly on a line with slope `s0 ≠ 0` and
intercept `b0`, and at least two x values differ, then the analysis
succeeds and recovers `slope = s0`, `intercept = b0` and
`r_squared = 1` exactly (real arithmetic; floating point only within
tolerance).  For a horizontal line (`s0 = 0`) the recovered slope and
intercept are still exact but `r_squared` is `0`, as the counterexample
shows. -/
theorem C8_amended_round_trip (tc pt : List ℝ) (lbl : String)
    (s0 b0 : ℝ)
    (hline : lin_y pt = (lin_x tc).map (fun v => s0 * v + b0))
    (a b : ℝ) (ha : a ∈ lin_x tc) (hb : b ∈ lin_x tc) (hab : a ≠ b)
    (hs0 : s0 ≠ 0) :
    ∃ rec, analyze_vaporization tc pt lbl = .ok rec ∧
      rec.slope = s0 ∧ rec.intercept = b0 ∧ rec.r_squared = 1 := by
  have hxne : lin_x tc ≠ [] := List.ne_nil_of_mem ha
  have hV : 0 < covb (lin_x tc) (lin_x tc) := covb_self_pos ha hb hab
  have hxy : covb (lin_x tc) (lin_y pt)
      = s0 * covb (lin_x tc) (lin_x tc) := by
    rw [hline]
    exact covb_map_affine (lin_x tc) hxne s0 b0
  have hyy : covb (lin_y pt) (lin_y pt)
      = s0 ^ 2 * covb (lin_x tc) (lin_x tc) := by
    rw [hline]
    exact covb_map_affine_self (lin_x tc) hxne s0 b0
  have hslope : fit_slope (lin_x tc) (lin_y pt) = s0 := by
    unfold fit_slope
    rw [hxy]
    exact mul_div_cancel_right₀ s0 hV.ne'
  refine ⟨_, analyze_ok_of tc pt lbl ?_ ?_, hslope, ?_, ?_⟩
  · rintro (h0 | h0)
    · exact absurd (List.length_eq_zero.mp h0 ▸ ha) (List.not_mem_nil a)
    · have h0' : (lin_x tc).length = 0 := by
        rw [hline, List.length_map] at h0
        exact h0
      exact absurd (List.length_eq_zero.mp h0' ▸ ha) (List.not_mem_nil a)
  · rintro ⟨hall, -⟩
    exact hab (hall a ha b hb)
  · show fit_intercept (lin_x tc) (lin_y pt) = b0
    unfold fit_intercept
    rw [hslope, hline, mean_map_affine (lin_x tc) hxne s0 b0]
    ring
  · show (fit_r (lin_x tc) (lin_y pt)) ^ 2 = 1
    have hden : covb (lin_x tc) (lin_x tc) *
        (s0 ^ 2 * covb (lin_x tc) (lin_x tc))
        = (|s0| * covb (lin_x tc) (lin_x tc)) ^ 2 := by
      rw [mul_pow, sq_abs]
      ring
    unfold fit_r
    rw [hyy, hxy, hden,
      Real.sqrt_sq (mul_nonneg (abs_nonneg s0) hV.le)]
    rw [if_neg (ne_of_gt (mul_pos (abs_pos.mpr hs0) hV))]
    rcases lt_or_gt_of_ne hs0 with hneg | hpos
    · rw [abs_of_neg hneg]
      have hr0 : s0 * covb (lin_x tc) (lin_x tc) /
          (-s0 * covb (lin_x tc) (lin_x tc)) = -1 := by
        rw [div_eq_iff (ne_of_gt (mul_pos (neg_pos.mpr hneg) hV))]
        ring
      rw [hr0, if_neg (by norm_num), if_neg (by norm_num)]
      norm_num
    · rw [abs_of_pos hpos]
      have hr0 : s0 * covb (lin_x tc) (lin_x tc) /
          (s0 * covb (lin_x tc) (lin_x tc)) = 1 :=
        div_self (ne_of_gt (mul_pos hpos hV))
      rw [hr0, if_neg (by norm_num), if_neg (by norm_num)]
      norm_num

/-- Witness for the amended C8 at the concrete input `(tcW, ptW)`,
whose linearized points lie exactly on the line with slope `logd` and
intercept `L1 - logd`. -/
theorem C8_amended_round_trip_witness :
    ∃ rec, analyze_vaporization tcW ptW "r" = .ok rec ∧
      rec.slope = logd ∧ rec.intercept = L1 - logd ∧
      rec.r_squared = 1 :=
  C8_amended_round_trip tcW ptW "r" logd (L1 - logd)
    (by
      rw [lin_x_W, lin_y_W]
      simp only [List.map_cons, List.map_nil, List.cons.injEq, and_true]
      refine ⟨by ring, ?_⟩
      unfold logd
      ring)
    1 2 (by rw [lin_x_W]; simp) (by rw [lin_x_W]; simp) (by norm_num)
    logd_ne

end

end VapLab
